import Mathlib

/-!
Shallow embedding of `gen_prefill.py`: the observation data model, the
merge/reconciliation engine (`merge_entries_new`, `pick_most_common`), the
seed-file loader (`load_pre`) and the Cabrillo log loader (`load_cabrillo`),
together with proofs of the specified behaviour.

Python strings are modelled over `List Char` through small structural helpers
so that every definition is kernel-computable. Python exceptions are modelled
by `Option`: a `none` marks an uncaught exception at that point of the program.
-/

namespace GenPrefill

/-! ### Python string primitives -/

/-- Python `str.upper()` (ASCII range, which is all this program feeds it). -/
def pyUpper (s : String) : String := String.mk (s.toList.map Char.toUpper)

/-- Python `str.strip()` with no argument: drop whitespace from both ends. -/
def pyTrim (s : String) : String :=
  String.mk (((s.toList.dropWhile Char.isWhitespace).reverse.dropWhile Char.isWhitespace).reverse)

/-- Helper splitting a character list at each separator chosen by `p`. -/
def splitPredAux (p : Char → Bool) : List Char → List Char → List (List Char)
  | [], acc => [acc.reverse]
  | c :: cs, acc =>
    if p c then acc.reverse :: splitPredAux p cs [] else splitPredAux p cs (c :: acc)

/-- Python `s.split(sep)` for a one-character separator: keeps empty pieces,
and an empty string yields one empty piece. -/
def pySplitOn (sep : Char) (s : String) : List String :=
  (splitPredAux (fun c => c == sep) s.toList []).map String.mk

/-- Python `s.split()` with no argument: split on whitespace runs, dropping
empty pieces. -/
def pySplitWs (s : String) : List String :=
  ((splitPredAux (fun c => c.isWhitespace) s.toList []).filter (fun cs => !cs.isEmpty)).map
    String.mk

/-- Python `s.startswith(p)`. -/
def pyStartsWith (s p : String) : Bool := p.toList.isPrefixOf s.toList

/-- Python slice `s[0:n]`. -/
def pyTake (s : String) (n : Nat) : String := String.mk (s.toList.take n)

/-- Decimal digit run used by `pyInt?`. -/
def pyDigits? (cs : List Char) : Option Nat :=
  if cs.isEmpty then none
  else if cs.all Char.isDigit then
    some (cs.foldl (fun n c => n * 10 + (c.toNat - 48)) 0)
  else none

/-- Python `int(s)`: optional surrounding whitespace, an optional sign, then
decimal digits; `none` is the `ValueError` on anything else. Digit-group
underscores are not modelled; no input here uses them. -/
def pyInt? (s : String) : Option Int :=
  match (pyTrim s).toList with
  | '-' :: rest => (pyDigits? rest).map (fun n => -(n : Int))
  | '+' :: rest => (pyDigits? rest).map (fun n => (n : Int))
  | cs => (pyDigits? cs).map (fun n => (n : Int))

/-! ### Python dict model

The dicts built by this program always have unique keys, so an association
list with first-match lookup models them exactly. -/

/-- Python dict lookup `d[k]`; `none` is the `KeyError`. -/
def alistGet {α : Type} : List (String × α) → String → Option α
  | [], _ => none
  | p :: ps, k => if p.1 = k then some p.2 else alistGet ps k

/-- Python dict assignment `d[k] = v`: overwrite in place, else append. -/
def alistSet {α : Type} : List (String × α) → String → α → List (String × α)
  | [], k, v => [(k, v)]
  | p :: ps, k, v => if p.1 = k then (k, v) :: ps else p :: alistSet ps k v

/-- Python `del d[k]` on a unique-key dict (drop the binding). -/
def alistDel {α : Type} : List (String × α) → String → List (String × α)
  | [], _ => []
  | p :: ps, k => if p.1 = k then ps else p :: alistDel ps k

/-- One observation: the integer `YEAR` entry of the Python dict, plus the
remaining string-valued entries in dict order. -/
structure Entry where
  year : Int
  fields : List (String × String)
deriving DecidableEq

/-- Python `entry[key]` for the string-valued fields of an observation. -/
def Entry.get (e : Entry) (k : String) : Option String := alistGet e.fields k

/-! ### The merge engine -/

/-- Python `sorted(xs)[-1]`: the maximum; `none` is the `IndexError` raised on
an empty list. -/
def list_max : List Int → Option Int
  | [] => none
  | x :: xs => some (xs.foldl max x)

/-- Python `max` over a list with a key function: keeps the first element seen,
replacing it only when a later element has a strictly larger key value; `none`
is the `ValueError` on an empty iterable. -/
def pymax {α : Type} (f : α → Nat) : List α → Option α
  | [] => none
  | x :: xs => some (xs.foldl (fun b y => if f b < f y then y else b) x)

/-- The comprehension `[entry[key] for entry in entries]`; `none` when some
entry lacks the key (`KeyError`). -/
def getValues (key : String) : List Entry → Option (List String)
  | [] => some []
  | e :: es =>
    match e.get key, getValues key es with
    | some v, some vs => some (v :: vs)
    | _, _ => none

/-- One admissible iteration order for the Python set `set(values)`: the
distinct values of the list. The iteration order of a real Python set is
unspecified (hash dependent); `pick_most_common_enum` makes it explicit. -/
def pySetList (values : List String) : List String := values.dedup

/-- Body of `pick_most_common` with the set iteration order `enum` made
explicit: `max(values_set, ...)` keyed by `values.count`. -/
def pick_most_common_enum (values enum : List String) : Option String :=
  pymax (fun v => values.count v) enum

/-- `pick_most_common(call, key, entries, latest_year)`; the `call` and
`latest_year` arguments feed only the stderr diagnostic and are dropped. -/
def pick_most_common (key : String) (entries : List Entry) : Option String :=
  match getValues key entries with
  | none => none
  | some values => pick_most_common_enum values (pySetList values)

/-- `merge_entries_new(call, entries)`; the `call` argument feeds only the
diagnostic. `none` models an uncaught exception: the `IndexError` on an empty
sequence, or a `KeyError` from a missing exchange key during voting. -/
def merge_entries_new (entries : List Entry) : Option Entry :=
  match list_max (entries.map (fun e => e.year)) with
  | none => none
  | some latest_year =>
    let latest_entries := entries.filter (fun e => e.year == latest_year)
    if latest_entries.length < 3 then
      latest_entries.head?
    else
      match latest_entries.head? with
      | none => none
      | some e0 =>
        match pick_most_common "SECT" latest_entries with
        | none => none
        | some s =>
          match pick_most_common "CK" latest_entries with
          | none => none
          | some c =>
            match pick_most_common "EXCH1" latest_entries with
            | none => none
            | some x =>
              some { e0 with
                fields := alistSet (alistSet (alistSet e0.fields "SECT" s) "CK" c) "EXCH1" x }

/-- Field value `v` occurs strictly more often in `values` than every other
value does. -/
def strict_plurality (v : String) (values : List String) : Prop :=
  v ∈ values ∧ ∀ w ∈ values, w ≠ v → values.count w < values.count v

instance (v : String) (values : List String) : Decidable (strict_plurality v values) := by
  unfold strict_plurality; infer_instance

/-- `enum` lists exactly the member set of `values`, with no repeats: an
admissible iteration order for the Python set `set(values)`. -/
def is_set_enum (enum values : List String) : Prop :=
  enum.Nodup ∧ ∀ w, w ∈ enum ↔ w ∈ values

/-! ### The seed-file loader `load_pre` -/

/-- Default N1MM column layout. -/
def n1mm_default_fields : List String :=
  ["CALL", "NAME", "LOC1", "LOC2", "SECT", "STATE", "CK", "BIRTHDATE", "EXCH1", "MISC",
   "USERTEXT"]

/-- Columns needed for Sweepstakes prefill. -/
def sweeps_fields : List String := ["CALL", "SECT", "CK", "EXCH1"]

/-- Python `list.remove(x)`: drop the first occurrence; `none` is the
`ValueError` when `x` is absent. -/
def listRemove : List String → String → Option (List String)
  | [], _ => none
  | y :: ys, x => if y = x then some ys else (listRemove ys x).map (fun zs => y :: zs)

/-- Loop state of `load_pre`: the current column layout, the sticky
`missing_field` flag, the callsign map, and the printed diagnostics. -/
structure PreState where
  fields : List String
  missing_field : Bool
  callmap : List (String × List Entry)
  diagnostics : List String
deriving DecidableEq

def initPreState : PreState :=
  { fields := n1mm_default_fields, missing_field := false, callmap := [], diagnostics := [] }

/-- Positional constructor for `PreState`, for readable concrete states. -/
def mkPre (fs : List String) (mf : Bool) (cm : List (String × List Entry))
    (dg : List String) : PreState :=
  { fields := fs, missing_field := mf, callmap := cm, diagnostics := dg }

/-- One iteration of the `load_pre` line loop. The source tests
`line.startswith(A or B or C)`, and a Python `or` of nonempty strings
short-circuits to its first operand, so only the exact spelling `!!Order!!`
is recognized. The stored dict is built by `dict(zip(fields, data))`, which
silently truncates to the shorter list, then `YEAR` is set to `-1` (modelled
by the separate `year` component, deleting any string column named `YEAR`),
and `CALL` is read and deleted. `none` is an uncaught exception: the
`ValueError` from `fields.remove` or the `KeyError` on `CALL` (the handler in
the source catches only `ValueError`, which nothing in the `try` body can
raise). -/
def load_pre_step (st0 : PreState) (line : String) : Option PreState :=
  let afterDirective : Option PreState :=
    if pyStartsWith line "!!Order!!" then
      match listRemove ((pySplitOn ',' line).map (fun item => pyUpper (pyTrim item)))
          "!!ORDER!!" with
      | none => none
      | some flds =>
        let missingOnes := sweeps_fields.filter (fun item => !(flds.contains item))
        some { st0 with
          fields := flds,
          missing_field := st0.missing_field || !missingOnes.isEmpty,
          diagnostics := st0.diagnostics ++
            missingOnes.map (fun item => "The " ++ item ++ " field is missing!") }
    else some st0
  match afterDirective with
  | none => none
  | some st =>
    if pyStartsWith line "#" || pyStartsWith line "!!" || st.missing_field then
      some st
    else
      let data := (pySplitOn ',' line).map (fun item => pyUpper (pyTrim item))
      let d := (st.fields.zip data).foldl (fun acc p => alistSet acc p.1 p.2) []
      match alistGet d "CALL" with
      | none => none
      | some call =>
        let obs : Entry := { year := -1, fields := alistDel (alistDel d "CALL") "YEAR" }
        some { st with callmap := alistSet st.callmap (pyUpper call) [obs] }

/-- `load_pre` over the lines of the file (line terminators already removed;
every use of a line strips its pieces anyway). Counters and prints to stdout
are dropped; the diagnostics that matter are kept in the state. -/
def load_pre (lines : List String) : Option PreState :=
  lines.foldlM load_pre_step initPreState

/-! ### The Cabrillo loader `load_cabrillo` -/

/-- One iteration of the `load_cabrillo` line loop. Every exception the `try`
body can raise is a `ValueError` caught by the handler, so the step is total.
Note that the bucket creation `callmap[call] = []` runs before the dict
argument of `append` is evaluated, so a line whose year fails `int()` leaves
an empty bucket behind for a first-seen callsign. -/
def load_cabrillo_line (m : List (String × List Entry)) (line : String) :
    List (String × List Entry) :=
  let buf := pyTrim line
  if pyStartsWith buf "QSO:" then
    let toks := pySplitWs buf
    if toks.length < 15 then m
    else
      let ymd := toks.getD 3 ""
      let call := pyUpper (toks.getD 10 "")
      let prec := toks.getD 12 ""
      let check := toks.getD 13 ""
      let sec := toks.getD 14 ""
      let m1 := if (alistGet m call).isSome then m else alistSet m call []
      match pyInt? (pyTake ymd 4) with
      | none => m1
      | some y =>
        alistSet m1 call ((alistGet m1 call).getD [] ++
          [{ year := y, fields := [("SECT", sec), ("CK", check), ("EXCH1", prec)] }])
  else m

/-- `load_cabrillo` over the lines of one file (counters and prints dropped). -/
def load_cabrillo (m : List (String × List Entry)) (lines : List String) :
    List (String × List Entry) :=
  lines.foldl load_cabrillo_line m

/-! ### Lemmas about the maximum of a list of years -/

lemma foldl_max_mem (xs : List Int) (a : Int) :
    xs.foldl max a = a ∨ xs.foldl max a ∈ xs := by
  induction xs generalizing a with
  | nil => exact Or.inl rfl
  | cons x xs ih =>
    simp only [List.foldl_cons]
    rcases ih (max a x) with h | h
    · rcases max_choice a x with hm | hm
      · exact Or.inl (h.trans hm)
      · exact Or.inr (by rw [h, hm]; exact List.mem_cons_self _ _)
    · exact Or.inr (List.mem_cons_of_mem _ h)

lemma foldl_max_le (xs : List Int) (a : Int) :
    a ≤ xs.foldl max a ∧ ∀ x ∈ xs, x ≤ xs.foldl max a := by
  induction xs generalizing a with
  | nil => exact ⟨le_refl a, by simp⟩
  | cons x xs ih =>
    obtain ⟨h1, h2⟩ := ih (max a x)
    simp only [List.foldl_cons]
    refine ⟨le_trans (le_max_left a x) h1, ?_⟩
    intro y hy
    rcases List.mem_cons.mp hy with rfl | hy
    · exact le_trans (le_max_right a y) h1
    · exact h2 y hy

lemma list_max_spec {xs : List Int} {m : Int} (h : list_max xs = some m) :
    m ∈ xs ∧ ∀ x ∈ xs, x ≤ m := by
  cases xs with
  | nil => simp [list_max] at h
  | cons x xs =>
    simp only [list_max, Option.some.injEq] at h
    subst h
    constructor
    · rcases foldl_max_mem xs x with h | h
      · rw [h]; exact List.mem_cons_self _ _
      · exact List.mem_cons_of_mem _ h
    · intro y hy
      rcases List.mem_cons.mp hy with rfl | hy
      · exact (foldl_max_le xs y).1
      · exact (foldl_max_le xs x).2 y hy

lemma list_max_perm {xs ys : List Int} (h : xs.Perm ys) : list_max xs = list_max ys := by
  cases hx : list_max xs with
  | none =>
    cases xs with
    | nil =>
      have hy : ys = [] := h.symm.eq_nil
      subst hy; rfl
    | cons a l => simp [list_max] at hx
  | some m =>
    obtain ⟨hmem, hub⟩ := list_max_spec hx
    cases hy : list_max ys with
    | none =>
      cases ys with
      | nil =>
        have hx' : xs = [] := h.eq_nil
        subst hx'; simp [list_max] at hx
      | cons b l => simp [list_max] at hy
    | some n =>
      obtain ⟨hmem2, hub2⟩ := list_max_spec hy
      have h1 : m ≤ n := hub2 m (h.mem_iff.mp hmem)
      have h2 : n ≤ m := hub n (h.mem_iff.mpr hmem2)
      rw [le_antisymm h1 h2]

/-! ### Lemmas about the Python `max` with a key function -/

lemma pymax_foldl_mem {α : Type} (f : α → Nat) (xs : List α) (a : α) :
    xs.foldl (fun b y => if f b < f y then y else b) a = a ∨
      xs.foldl (fun b y => if f b < f y then y else b) a ∈ xs := by
  induction xs generalizing a with
  | nil => exact Or.inl rfl
  | cons x xs ih =>
    simp only [List.foldl_cons]
    by_cases hfa : f a < f x
    · rw [if_pos hfa]
      rcases ih x with h | h
      · exact Or.inr (by rw [h]; exact List.mem_cons_self _ _)
      · exact Or.inr (List.mem_cons_of_mem _ h)
    · rw [if_neg hfa]
      rcases ih a with h | h
      · exact Or.inl h
      · exact Or.inr (List.mem_cons_of_mem _ h)

lemma pymax_mem {α : Type} {f : α → Nat} {l : List α} {v : α} (h : pymax f l = some v) :
    v ∈ l := by
  cases l with
  | nil => simp [pymax] at h
  | cons x xs =>
    simp only [pymax, Option.some.injEq] at h
    subst h
    rcases pymax_foldl_mem f xs x with h | h
    · rw [h]; exact List.mem_cons_self _ _
    · exact List.mem_cons_of_mem _ h

lemma pymax_foldl_stay {α : Type} (f : α → Nat) {xs : List α} {v : α}
    (h : ∀ y ∈ xs, ¬ f v < f y) :
    xs.foldl (fun b y => if f b < f y then y else b) v = v := by
  induction xs with
  | nil => rfl
  | cons x xs ih =>
    simp only [List.foldl_cons]
    rw [if_neg (h x (List.mem_cons_self _ _))]
    exact ih (fun y hy => h y (List.mem_cons_of_mem _ hy))

lemma pymax_foldl_climb {α : Type} (f : α → Nat) {v : α} :
    ∀ (xs : List α) (b : α), f b < f v → v ∈ xs → (∀ w ∈ xs, w ≠ v → f w < f v) →
      xs.foldl (fun b y => if f b < f y then y else b) b = v := by
  intro xs
  induction xs with
  | nil => intro b _ hv _; exact absurd hv (List.not_mem_nil v)
  | cons x xs ih =>
    intro b hb hv h
    simp only [List.foldl_cons]
    by_cases hxv : x = v
    · subst hxv
      rw [if_pos hb]
      refine pymax_foldl_stay f (fun y hy => ?_)
      by_cases hyv : y = x
      · subst hyv; exact lt_irrefl _
      · exact not_lt_of_gt (h y (List.mem_cons_of_mem _ hy) hyv)
    · have hx' : f x < f v := h x (List.mem_cons_self _ _) hxv
      have hv' : v ∈ xs := by
        rcases List.mem_cons.mp hv with h1 | h1
        · exact absurd h1.symm hxv
        · exact h1
      have h' : ∀ w ∈ xs, w ≠ v → f w < f v :=
        fun w hw hwv => h w (List.mem_cons_of_mem _ hw) hwv
      by_cases hbx : f b < f x
      · rw [if_pos hbx]
        exact ih x hx' hv' h'
      · rw [if_neg hbx]
        exact ih b hb hv' h'

lemma pymax_of_strict {α : Type} {f : α → Nat} {l : List α} {v : α}
    (hv : v ∈ l) (h : ∀ w ∈ l, w ≠ v → f w < f v) : pymax f l = some v := by
  cases l with
  | nil => exact absurd hv (List.not_mem_nil v)
  | cons x xs =>
    simp only [pymax, Option.some.injEq]
    by_cases hxv : x = v
    · subst hxv
      refine pymax_foldl_stay f (fun y hy => ?_)
      by_cases hyv : y = x
      · subst hyv; exact lt_irrefl _
      · exact not_lt_of_gt (h y (List.mem_cons_of_mem _ hy) hyv)
    · have hx' : f x < f v := h x (List.mem_cons_self _ _) hxv
      have hv' : v ∈ xs := by
        rcases List.mem_cons.mp hv with h1 | h1
        · exact absurd h1.symm hxv
        · exact h1
      exact pymax_foldl_climb f xs x hx' hv'
        (fun w hw hwv => h w (List.mem_cons_of_mem _ hw) hwv)

lemma pymax_isSome {α : Type} (f : α → Nat) {l : List α} (h : l ≠ []) :
    ∃ w, pymax f l = some w := by
  cases l with
  | nil => exact absurd rfl h
  | cons x xs => exact ⟨_, rfl⟩

/-! ### Lemmas about `getValues` -/

lemma getValues_cons {key : String} {e : Entry} {es : List Entry} {vs : List String}
    (h : getValues key (e :: es) = some vs) :
    ∃ v vs', e.get key = some v ∧ getValues key es = some vs' ∧ vs = v :: vs' := by
  unfold getValues at h
  cases hv : e.get key with
  | none => rw [hv] at h; simp at h
  | some v =>
    cases hvs : getValues key es with
    | none => rw [hv, hvs] at h; simp at h
    | some vs' =>
      rw [hv, hvs] at h
      simp only [Option.some.injEq] at h
      exact ⟨v, vs', rfl, rfl, h.symm⟩

lemma getValues_length {key : String} :
    ∀ {es : List Entry} {vs : List String}, getValues key es = some vs →
      vs.length = es.length := by
  intro es
  induction es with
  | nil =>
    intro vs h
    simp only [getValues, Option.some.injEq] at h
    subst h; rfl
  | cons e es ih =>
    intro vs h
    obtain ⟨v, vs', _, hvs, rfl⟩ := getValues_cons h
    simp [ih hvs]

lemma getValues_mem {key : String} :
    ∀ {es : List Entry} {vs : List String}, getValues key es = some vs →
      ∀ v ∈ vs, ∃ e, e ∈ es ∧ e.get key = some v := by
  intro es
  induction es with
  | nil =>
    intro vs h v hv
    simp only [getValues, Option.some.injEq] at h
    subst h
    exact absurd hv (List.not_mem_nil v)
  | cons e es ih =>
    intro vs h v hv
    obtain ⟨w, vs', hw, hvs, rfl⟩ := getValues_cons h
    rcases List.mem_cons.mp hv with rfl | hv'
    · exact ⟨e, List.mem_cons_self _ _, hw⟩
    · obtain ⟨e', he', hg⟩ := ih hvs v hv'
      exact ⟨e', List.mem_cons_of_mem _ he', hg⟩

lemma getValues_perm {key : String} {es es' : List Entry} (h : es.Perm es') :
    ∀ {vs : List String}, getValues key es = some vs →
      ∃ vs', getValues key es' = some vs' ∧ vs.Perm vs' := by
  induction h with
  | nil =>
    intro vs hv
    exact ⟨vs, hv, List.Perm.refl vs⟩
  | cons x h ih =>
    intro vs hv
    obtain ⟨v, vs1, hx, hes, rfl⟩ := getValues_cons hv
    obtain ⟨vs1', hes', hp⟩ := ih hes
    exact ⟨v :: vs1', by simp [getValues, hx, hes'], hp.cons v⟩
  | swap x y l =>
    intro vs hv
    obtain ⟨vy, vs1, hy, h1, rfl⟩ := getValues_cons hv
    obtain ⟨vx, vs2, hx, h2, rfl⟩ := getValues_cons h1
    exact ⟨vx :: vy :: vs2, by simp [getValues, hx, hy, h2], List.Perm.swap vx vy vs2⟩
  | trans h1 h2 ih1 ih2 =>
    intro vs hv
    obtain ⟨vs1, hv1, hp1⟩ := ih1 hv
    obtain ⟨vs2, hv2, hp2⟩ := ih2 hv1
    exact ⟨vs2, hv2, hp1.trans hp2⟩

/-! ### Lemmas about the dict model -/

lemma alistGet_alistSet_self {α : Type} (m : List (String × α)) (k : String) (v : α) :
    alistGet (alistSet m k v) k = some v := by
  induction m with
  | nil => simp [alistSet, alistGet]
  | cons p ps ih =>
    by_cases h : p.1 = k
    · simp [alistSet, h, alistGet]
    · simp [alistSet, h, alistGet, ih]

lemma alistGet_alistSet_ne {α : Type} (m : List (String × α)) {k' k : String} (v : α)
    (h : k' ≠ k) : alistGet (alistSet m k' v) k = alistGet m k := by
  induction m with
  | nil => simp [alistSet, alistGet, h]
  | cons p ps ih =>
    by_cases hp : p.1 = k'
    · simp [alistSet, hp, alistGet, h]
    · by_cases hk : p.1 = k
      · simp [alistSet, hp, alistGet, hk, Ne.symm h]
      · simp [alistSet, hp, alistGet, hk, ih]

/-! ### Lemmas about `pick_most_common` -/

lemma pick_most_common_eq {key : String} {entries : List Entry} {values : List String}
    (h : getValues key entries = some values) :
    pick_most_common key entries = pick_most_common_enum values (pySetList values) := by
  unfold pick_most_common
  rw [h]

lemma pick_most_common_mem {key : String} {entries : List Entry} {w : String}
    (h : pick_most_common key entries = some w) :
    ∃ e, e ∈ entries ∧ e.get key = some w := by
  unfold pick_most_common at h
  cases hv : getValues key entries with
  | none => rw [hv] at h; simp at h
  | some values =>
    rw [hv] at h
    have hmem : w ∈ pySetList values := pymax_mem h
    have hw : w ∈ values := List.mem_dedup.mp hmem
    exact getValues_mem hv w hw

lemma pick_enum_plurality {values enum : List String} {v : String}
    (he : is_set_enum enum values) (hp : strict_plurality v values) :
    pick_most_common_enum values enum = some v := by
  obtain ⟨hnd, hiff⟩ := he
  obtain ⟨hv, hcount⟩ := hp
  exact pymax_of_strict ((hiff v).mpr hv)
    (fun w hw hwv => hcount w ((hiff w).mp hw) hwv)

lemma pySetList_is_set_enum (values : List String) : is_set_enum (pySetList values) values :=
  ⟨List.nodup_dedup values, fun _w => List.mem_dedup⟩

lemma pick_most_common_plurality {key : String} {entries : List Entry}
    {values : List String} {v : String}
    (h : getValues key entries = some values) (hp : strict_plurality v values) :
    pick_most_common key entries = some v := by
  rw [pick_most_common_eq h]
  exact pick_enum_plurality (pySetList_is_set_enum values) hp

lemma pick_most_common_isSome {key : String} {entries : List Entry} {values : List String}
    (h : getValues key entries = some values) (hne : values ≠ []) :
    ∃ w, pick_most_common key entries = some w := by
  rw [pick_most_common_eq h]
  refine pymax_isSome _ ?_
  simpa [pySetList, List.dedup_eq_nil] using hne

lemma strict_plurality_perm {v : String} {vs vs' : List String} (h : vs.Perm vs')
    (hp : strict_plurality v vs) : strict_plurality v vs' := by
  obtain ⟨hv, hc⟩ := hp
  refine ⟨h.mem_iff.mp hv, fun w hw hwv => ?_⟩
  rw [← h.count_eq, ← h.count_eq]
  exact hc w (h.mem_iff.mpr hw) hwv

/-! ### Unfolding lemmas for `merge_entries_new` -/

lemma merge_entries_new_lt3 {entries : List Entry} {L : Int}
    (hmax : list_max (entries.map (fun e => e.year)) = some L)
    (hlt : (entries.filter (fun e => e.year == L)).length < 3) :
    merge_entries_new entries = (entries.filter (fun e => e.year == L)).head? := by
  simp only [merge_entries_new, hmax]
  rw [if_pos hlt]

lemma merge_entries_new_ge3_eq {entries : List Entry} {L : Int} {e0 : Entry} {s c x : String}
    (hmax : list_max (entries.map (fun e => e.year)) = some L)
    (hge : ¬ (entries.filter (fun e => e.year == L)).length < 3)
    (h0 : (entries.filter (fun e => e.year == L)).head? = some e0)
    (hs : pick_most_common "SECT" (entries.filter (fun e => e.year == L)) = some s)
    (hc : pick_most_common "CK" (entries.filter (fun e => e.year == L)) = some c)
    (hx : pick_most_common "EXCH1" (entries.filter (fun e => e.year == L)) = some x) :
    merge_entries_new entries = some { e0 with
      fields := alistSet (alistSet (alistSet e0.fields "SECT" s) "CK" c) "EXCH1" x } := by
  simp only [merge_entries_new, hmax, h0, hs, hc, hx]
  rw [if_neg hge]

lemma merge_entries_new_ge3_inv {entries : List Entry} {L : Int} {r : Entry}
    (hmax : list_max (entries.map (fun e => e.year)) = some L)
    (hge : ¬ (entries.filter (fun e => e.year == L)).length < 3)
    (hr : merge_entries_new entries = some r) :
    ∃ e0 s c x,
      (entries.filter (fun e => e.year == L)).head? = some e0 ∧
      pick_most_common "SECT" (entries.filter (fun e => e.year == L)) = some s ∧
      pick_most_common "CK" (entries.filter (fun e => e.year == L)) = some c ∧
      pick_most_common "EXCH1" (entries.filter (fun e => e.year == L)) = some x ∧
      r = { e0 with
        fields := alistSet (alistSet (alistSet e0.fields "SECT" s) "CK" c) "EXCH1" x } := by
  simp only [merge_entries_new, hmax] at hr
  rw [if_neg hge] at hr
  cases h0 : (entries.filter (fun e => e.year == L)).head? with
  | none => rw [h0] at hr; simp at hr
  | some e0 =>
    rw [h0] at hr
    cases hs : pick_most_common "SECT" (entries.filter (fun e => e.year == L)) with
    | none => rw [hs] at hr; simp at hr
    | some s =>
      rw [hs] at hr
      cases hc : pick_most_common "CK" (entries.filter (fun e => e.year == L)) with
      | none => rw [hc] at hr; simp at hr
      | some c =>
        rw [hc] at hr
        cases hx : pick_most_common "EXCH1" (entries.filter (fun e => e.year == L)) with
        | none => rw [hx] at hr; simp at hr
        | some x =>
          rw [hx] at hr
          simp only [Option.some.injEq] at hr
          exact ⟨e0, s, c, x, rfl, rfl, rfl, rfl, hr.symm⟩

/-- Membership and year of the head of the filtered latest-year list. -/
lemma head_filter_latest {entries : List Entry} {L : Int} {e : Entry}
    (h : (entries.filter (fun e => e.year == L)).head? = some e) :
    e ∈ entries ∧ e.year = L := by
  have hmem : e ∈ entries.filter (fun e => e.year == L) := by
    cases hfe : entries.filter (fun e => e.year == L) with
    | nil => rw [hfe] at h; simp at h
    | cons a t =>
      rw [hfe] at h
      simp only [List.head?_cons, Option.some.injEq] at h
      subst h
      exact List.mem_cons_self _ _
  obtain ⟨h1, h2⟩ := List.mem_filter.mp hmem
  exact ⟨h1, by simpa using h2⟩

/-- The filtered latest-year list is nonempty once the maximum exists. -/
lemma filter_latest_ne_nil {entries : List Entry} {L : Int}
    (hmax : list_max (entries.map (fun e => e.year)) = some L) :
    entries.filter (fun e => e.year == L) ≠ [] := by
  obtain ⟨hmem, _⟩ := list_max_spec hmax
  obtain ⟨e1, he1, hy1⟩ := List.mem_map.mp hmem
  have : e1 ∈ entries.filter (fun e => e.year == L) :=
    List.mem_filter.mpr ⟨he1, by simp [hy1]⟩
  exact List.ne_nil_of_mem this

/-! ### Claim C1 -/

/-- Claim C1: for every observation sequence on which `merge_entries_new`
returns a record, that record is derived only from observations whose year
equals the maximum year in the sequence: its year is the maximum, every one of
its field values occurs in some maximum-year observation, and in particular
once any observation carries a nonnegative (Cabrillo) year, every observation
contributing a field value carries a nonnegative year, so a seed observation
(sentinel year -1) never contributes. -/
theorem merge_uses_only_latest_year {entries : List Entry} {L : Int} {r : Entry}
    (hmax : list_max (entries.map (fun e => e.year)) = some L)
    (hr : merge_entries_new entries = some r) :
    r.year = L ∧
    (∀ e ∈ entries, e.year ≤ L) ∧
    (∀ k v, r.get k = some v → ∃ e, e ∈ entries ∧ e.year = L ∧ e.get k = some v) ∧
    ((∃ e, e ∈ entries ∧ 0 ≤ e.year) →
      ∀ k v, r.get k = some v → ∃ e, e ∈ entries ∧ 0 ≤ e.year ∧ e.get k = some v) := by
  have hub : ∀ e ∈ entries, e.year ≤ L := by
    intro e he
    exact (list_max_spec hmax).2 _ (List.mem_map_of_mem _ he)
  have main : r.year = L ∧
      ∀ k v, r.get k = some v → ∃ e, e ∈ entries ∧ e.year = L ∧ e.get k = some v := by
    by_cases hlt : (entries.filter (fun e => e.year == L)).length < 3
    · have hmerge := merge_entries_new_lt3 hmax hlt
      rw [hmerge] at hr
      obtain ⟨hrent, hry⟩ := head_filter_latest hr
      exact ⟨hry, fun k v hkv => ⟨r, hrent, hry, hkv⟩⟩
    · obtain ⟨e0, s, c, x, h0, hs, hc, hx, rfl⟩ := merge_entries_new_ge3_inv hmax hlt hr
      obtain ⟨h0ent, h0y⟩ := head_filter_latest h0
      refine ⟨h0y, ?_⟩
      intro k v hkv
      simp only [Entry.get] at hkv
      by_cases hkX : k = "EXCH1"
      · subst hkX
        rw [alistGet_alistSet_self] at hkv
        obtain ⟨e, hel, hg⟩ := pick_most_common_mem hx
        obtain ⟨he, hy⟩ := List.mem_filter.mp hel
        injection hkv with hxv
        exact ⟨e, he, by simpa using hy, by rw [← hxv]; exact hg⟩
      · rw [alistGet_alistSet_ne _ _ (fun hh => hkX hh.symm)] at hkv
        by_cases hkC : k = "CK"
        · subst hkC
          rw [alistGet_alistSet_self] at hkv
          obtain ⟨e, hel, hg⟩ := pick_most_common_mem hc
          obtain ⟨he, hy⟩ := List.mem_filter.mp hel
          injection hkv with hcv
          exact ⟨e, he, by simpa using hy, by rw [← hcv]; exact hg⟩
        · rw [alistGet_alistSet_ne _ _ (fun hh => hkC hh.symm)] at hkv
          by_cases hkS : k = "SECT"
          · subst hkS
            rw [alistGet_alistSet_self] at hkv
            obtain ⟨e, hel, hg⟩ := pick_most_common_mem hs
            obtain ⟨he, hy⟩ := List.mem_filter.mp hel
            injection hkv with hsv
            exact ⟨e, he, by simpa using hy, by rw [← hsv]; exact hg⟩
          · rw [alistGet_alistSet_ne _ _ (fun hh => hkS hh.symm)] at hkv
            exact ⟨e0, h0ent, h0y, hkv⟩
  obtain ⟨hry, hcontrib⟩ := main
  refine ⟨hry, hub, hcontrib, ?_⟩
  rintro ⟨e1, he1, hy1⟩ k v hkv
  obtain ⟨e, he, hyL, hg⟩ := hcontrib k v hkv
  refine ⟨e, he, ?_, hg⟩
  rw [hyL]
  exact le_trans hy1 (hub e1 he1)

def c1_entries : List Entry :=
  [{ year := -1, fields := [("SECT", "EB"), ("CK", "64"), ("EXCH1", "A"), ("NAME", "HOWARD")] },
   { year := 2023, fields := [("SECT", "ORG"), ("CK", "20"), ("EXCH1", "B")] }]

def c1_result : Entry := { year := 2023, fields := [("SECT", "ORG"), ("CK", "20"), ("EXCH1", "B")] }

/-- Witness for claim C1 at a concrete input: a seed observation plus one 2023
Cabrillo observation; the seed contributes nothing. -/
theorem merge_uses_only_latest_year_witness :
    list_max (c1_entries.map (fun e => e.year)) = some 2023 ∧
    merge_entries_new c1_entries = some c1_result ∧
    (c1_result.year = 2023 ∧
     (∀ e ∈ c1_entries, e.year ≤ 2023) ∧
     (∀ k v, c1_result.get k = some v →
        ∃ e, e ∈ c1_entries ∧ e.year = 2023 ∧ e.get k = some v) ∧
     ((∃ e, e ∈ c1_entries ∧ 0 ≤ e.year) →
        ∀ k v, c1_result.get k = some v →
          ∃ e, e ∈ c1_entries ∧ 0 ≤ e.year ∧ e.get k = some v)) :=
  ⟨by decide, by decide, merge_uses_only_latest_year (by decide) (by decide)⟩

/-! ### Claim C3 -/

/-- Claim C3: when fewer than 3 observations share the maximum year,
`merge_entries_new` returns the first maximum-year observation itself,
unmodified, so every field of the result comes from that single observation. -/
theorem merge_few_returns_first_unmodified {entries : List Entry} {L : Int}
    (hmax : list_max (entries.map (fun e => e.year)) = some L)
    (hlt : (entries.filter (fun e => e.year == L)).length < 3) :
    ∃ e, merge_entries_new entries = some e ∧
      (entries.filter (fun e => e.year == L)).head? = some e ∧
      e ∈ entries ∧ e.year = L := by
  have hmerge := merge_entries_new_lt3 hmax hlt
  have hne := filter_latest_ne_nil hmax
  have hex : ∃ a, (entries.filter (fun e => e.year == L)).head? = some a := by
    cases hfe : entries.filter (fun e => e.year == L) with
    | nil => exact absurd hfe hne
    | cons a t => exact ⟨a, rfl⟩
  obtain ⟨a, h0⟩ := hex
  obtain ⟨ha, hay⟩ := head_filter_latest h0
  exact ⟨a, by rw [hmerge]; exact h0, h0, ha, hay⟩

def c3_entries : List Entry :=
  [{ year := 2024, fields := [("SECT", "EB"), ("CK", "64"), ("EXCH1", "A")] },
   { year := 2024, fields := [("SECT", "SV"), ("CK", "72"), ("EXCH1", "B")] },
   { year := 2023, fields := [("SECT", "OR"), ("CK", "99"), ("EXCH1", "Q")] }]

/-- Witness for claim C3 at a concrete input: two observations share the
maximum year 2024, and the merge returns the first of them. -/
theorem merge_few_returns_first_unmodified_witness :
    list_max (c3_entries.map (fun e => e.year)) = some 2024 ∧
    (c3_entries.filter (fun e => e.year == 2024)).length < 3 ∧
    (∃ e, merge_entries_new c3_entries = some e ∧
      (c3_entries.filter (fun e => e.year == 2024)).head? = some e ∧
      e ∈ c3_entries ∧ e.year = 2024) :=
  ⟨by decide, by decide, merge_few_returns_first_unmodified (by decide) (by decide)⟩

/-! ### Claim C10 -/

/-- Claim C10: with 3 or more maximum-year observations, whenever
`merge_entries_new` returns a record, each of its exchange fields SECT, CK and
EXCH1 holds a value that actually occurs for that field among the maximum-year
observations, and the merged year equals the maximum year; this needs no
plurality hypothesis, so it covers ties. -/
theorem merge_vote_stays_in_latest_year {entries : List Entry} {L : Int} {r : Entry}
    (hmax : list_max (entries.map (fun e => e.year)) = some L)
    (h3 : 3 ≤ (entries.filter (fun e => e.year == L)).length)
    (hr : merge_entries_new entries = some r) :
    r.year = L ∧
    ∀ k, (k = "SECT" ∨ k = "CK" ∨ k = "EXCH1") →
      ∃ v, r.get k = some v ∧ ∃ e, e ∈ entries ∧ e.year = L ∧ e.get k = some v := by
  have hge : ¬ (entries.filter (fun e => e.year == L)).length < 3 := not_lt_of_ge h3
  obtain ⟨e0, s, c, x, h0, hs, hc, hx, rfl⟩ := merge_entries_new_ge3_inv hmax hge hr
  obtain ⟨h0ent, h0y⟩ := head_filter_latest h0
  have unpack : ∀ {key w},
      pick_most_common key (entries.filter (fun e => e.year == L)) = some w →
      ∃ e, e ∈ entries ∧ e.year = L ∧ e.get key = some w := by
    intro key w hpick
    obtain ⟨e, hel, hg⟩ := pick_most_common_mem hpick
    obtain ⟨he, hy⟩ := List.mem_filter.mp hel
    exact ⟨e, he, by simpa using hy, hg⟩
  refine ⟨h0y, ?_⟩
  intro k hk
  rcases hk with rfl | rfl | rfl
  · refine ⟨s, ?_, unpack hs⟩
    simp only [Entry.get]
    rw [alistGet_alistSet_ne _ _ (by decide : ("EXCH1" : String) ≠ "SECT"),
        alistGet_alistSet_ne _ _ (by decide : ("CK" : String) ≠ "SECT"),
        alistGet_alistSet_self]
  · refine ⟨c, ?_, unpack hc⟩
    simp only [Entry.get]
    rw [alistGet_alistSet_ne _ _ (by decide : ("EXCH1" : String) ≠ "CK"),
        alistGet_alistSet_self]
  · refine ⟨x, ?_, unpack hx⟩
    simp only [Entry.get]
    rw [alistGet_alistSet_self]

def c10_entries : List Entry :=
  [{ year := 2024, fields := [("SECT", "MDC"), ("CK", "56"), ("EXCH1", "A")] },
   { year := 2024, fields := [("SECT", "MDC"), ("CK", "57"), ("EXCH1", "U")] },
   { year := 2024, fields := [("SECT", "EPA"), ("CK", "56"), ("EXCH1", "A")] },
   { year := 2024, fields := [("SECT", "EPA"), ("CK", "57"), ("EXCH1", "A")] }]

def c10_result : Entry := { year := 2024, fields := [("SECT", "MDC"), ("CK", "56"), ("EXCH1", "A")] }

/-- Witness for claim C10 at a concrete input where SECT and CK are tied two
against two among four 2024 observations. -/
theorem merge_vote_stays_in_latest_year_witness :
    list_max (c10_entries.map (fun e => e.year)) = some 2024 ∧
    3 ≤ (c10_entries.filter (fun e => e.year == 2024)).length ∧
    merge_entries_new c10_entries = some c10_result ∧
    (c10_result.year = 2024 ∧
     ∀ k, (k = "SECT" ∨ k = "CK" ∨ k = "EXCH1") →
       ∃ v, c10_result.get k = some v ∧
         ∃ e, e ∈ c10_entries ∧ e.year = 2024 ∧ e.get k = some v) :=
  ⟨by decide, by decide, by decide,
    merge_vote_stays_in_latest_year (by decide) (by decide) (by decide)⟩

/-! ### Claim C2 -/

/-- Claim C2: if 3 or more observations share the maximum year, they all carry
the three exchange fields, and for one of SECT, CK or EXCH1 some value occurs
strictly more often than every other value among the maximum-year
observations, then for every permutation of the input order the merged record
holds exactly that plurality value for that field. -/
theorem merge_plurality_permutation_invariant
    {entries entries' : List Entry} {key v : String} {L : Int}
    {vsS vsC vsX : List String}
    (hperm : entries.Perm entries')
    (hmax : list_max (entries.map (fun e => e.year)) = some L)
    (h3 : 3 ≤ (entries.filter (fun e => e.year == L)).length)
    (hS : getValues "SECT" (entries.filter (fun e => e.year == L)) = some vsS)
    (hC : getValues "CK" (entries.filter (fun e => e.year == L)) = some vsC)
    (hX : getValues "EXCH1" (entries.filter (fun e => e.year == L)) = some vsX)
    (hkey : key = "SECT" ∨ key = "CK" ∨ key = "EXCH1")
    (hplu : strict_plurality v (if key = "SECT" then vsS else if key = "CK" then vsC else vsX)) :
    ∃ r, merge_entries_new entries' = some r ∧ r.get key = some v := by
  have hmax' : list_max (entries'.map (fun e => e.year)) = some L := by
    rw [← list_max_perm (hperm.map (fun e => e.year))]
    exact hmax
  have hpf : (entries.filter (fun e => e.year == L)).Perm
      (entries'.filter (fun e => e.year == L)) := hperm.filter _
  have h3' : 3 ≤ (entries'.filter (fun e => e.year == L)).length := by
    rw [← hpf.length_eq]
    exact h3
  have hge' : ¬ (entries'.filter (fun e => e.year == L)).length < 3 := not_lt_of_ge h3'
  have hne' : entries'.filter (fun e => e.year == L) ≠ [] := filter_latest_ne_nil hmax'
  have hex : ∃ a, (entries'.filter (fun e => e.year == L)).head? = some a := by
    cases hfe : entries'.filter (fun e => e.year == L) with
    | nil => exact absurd hfe hne'
    | cons a t => exact ⟨a, rfl⟩
  obtain ⟨e0, h0⟩ := hex
  obtain ⟨vsS', hS', hpS⟩ := getValues_perm hpf hS
  obtain ⟨vsC', hC', hpC⟩ := getValues_perm hpf hC
  obtain ⟨vsX', hX', hpX⟩ := getValues_perm hpf hX
  have hvlen : ∀ {kk : String} {vs' : List String},
      getValues kk (entries'.filter (fun e => e.year == L)) = some vs' → vs' ≠ [] := by
    intro kk vs' hgv h
    have hl := getValues_length hgv
    rw [h] at hl
    simp only [List.length_nil] at hl
    omega
  rcases hkey with rfl | rfl | rfl
  · rw [if_pos rfl] at hplu
    have hs' : pick_most_common "SECT" (entries'.filter (fun e => e.year == L)) = some v :=
      pick_most_common_plurality hS' (strict_plurality_perm hpS hplu)
    obtain ⟨c, hc'⟩ := pick_most_common_isSome hC' (hvlen hC')
    obtain ⟨x, hx'⟩ := pick_most_common_isSome hX' (hvlen hX')
    refine ⟨_, merge_entries_new_ge3_eq hmax' hge' h0 hs' hc' hx', ?_⟩
    simp only [Entry.get]
    rw [alistGet_alistSet_ne _ _ (by decide : ("EXCH1" : String) ≠ "SECT"),
        alistGet_alistSet_ne _ _ (by decide : ("CK" : String) ≠ "SECT"),
        alistGet_alistSet_self]
  · rw [if_neg (by decide), if_pos rfl] at hplu
    have hc' : pick_most_common "CK" (entries'.filter (fun e => e.year == L)) = some v :=
      pick_most_common_plurality hC' (strict_plurality_perm hpC hplu)
    obtain ⟨s, hs'⟩ := pick_most_common_isSome hS' (hvlen hS')
    obtain ⟨x, hx'⟩ := pick_most_common_isSome hX' (hvlen hX')
    refine ⟨_, merge_entries_new_ge3_eq hmax' hge' h0 hs' hc' hx', ?_⟩
    simp only [Entry.get]
    rw [alistGet_alistSet_ne _ _ (by decide : ("EXCH1" : String) ≠ "CK"),
        alistGet_alistSet_self]
  · rw [if_neg (by decide), if_neg (by decide)] at hplu
    have hx' : pick_most_common "EXCH1" (entries'.filter (fun e => e.year == L)) = some v :=
      pick_most_common_plurality hX' (strict_plurality_perm hpX hplu)
    obtain ⟨s, hs'⟩ := pick_most_common_isSome hS' (hvlen hS')
    obtain ⟨c, hc'⟩ := pick_most_common_isSome hC' (hvlen hC')
    refine ⟨_, merge_entries_new_ge3_eq hmax' hge' h0 hs' hc' hx', ?_⟩
    simp only [Entry.get]
    rw [alistGet_alistSet_self]

def c2_entries : List Entry :=
  [{ year := 2023, fields := [("SECT", "OR"), ("CK", "99"), ("EXCH1", "Q")] },
   { year := 2024, fields := [("SECT", "MDC"), ("CK", "56"), ("EXCH1", "A")] },
   { year := 2024, fields := [("SECT", "MDC"), ("CK", "57"), ("EXCH1", "A")] },
   { year := 2024, fields := [("SECT", "EPA"), ("CK", "58"), ("EXCH1", "B")] }]

def c2_entries_perm : List Entry :=
  [{ year := 2024, fields := [("SECT", "EPA"), ("CK", "58"), ("EXCH1", "B")] },
   { year := 2023, fields := [("SECT", "OR"), ("CK", "99"), ("EXCH1", "Q")] },
   { year := 2024, fields := [("SECT", "MDC"), ("CK", "57"), ("EXCH1", "A")] },
   { year := 2024, fields := [("SECT", "MDC"), ("CK", "56"), ("EXCH1", "A")] }]

/-- Witness for claim C2 at a concrete input: three 2024 observations with
sections MDC, MDC, EPA, reordered, still yield section MDC. -/
theorem merge_plurality_permutation_invariant_witness :
    c2_entries.Perm c2_entries_perm ∧
    list_max (c2_entries.map (fun e => e.year)) = some 2024 ∧
    3 ≤ (c2_entries.filter (fun e => e.year == 2024)).length ∧
    getValues "SECT" (c2_entries.filter (fun e => e.year == 2024)) =
      some ["MDC", "MDC", "EPA"] ∧
    getValues "CK" (c2_entries.filter (fun e => e.year == 2024)) =
      some ["56", "57", "58"] ∧
    getValues "EXCH1" (c2_entries.filter (fun e => e.year == 2024)) =
      some ["A", "A", "B"] ∧
    strict_plurality "MDC"
      (if ("SECT" : String) = "SECT" then ["MDC", "MDC", "EPA"]
       else if ("SECT" : String) = "CK" then ["56", "57", "58"] else ["A", "A", "B"]) ∧
    (∃ r, merge_entries_new c2_entries_perm = some r ∧ r.get "SECT" = some "MDC") := by
  have hp : c2_entries.Perm c2_entries_perm := by decide
  have hm : list_max (c2_entries.map (fun e => e.year)) = some 2024 := by decide
  have h3 : 3 ≤ (c2_entries.filter (fun e => e.year == 2024)).length := by decide
  have hS : getValues "SECT" (c2_entries.filter (fun e => e.year == 2024)) =
      some ["MDC", "MDC", "EPA"] := by decide
  have hC : getValues "CK" (c2_entries.filter (fun e => e.year == 2024)) =
      some ["56", "57", "58"] := by decide
  have hX : getValues "EXCH1" (c2_entries.filter (fun e => e.year == 2024)) =
      some ["A", "A", "B"] := by decide
  have hplu : strict_plurality "MDC"
      (if ("SECT" : String) = "SECT" then ["MDC", "MDC", "EPA"]
       else if ("SECT" : String) = "CK" then ["56", "57", "58"] else ["A", "A", "B"]) := by
    decide
  exact ⟨hp, hm, h3, hS, hC, hX, hplu,
    merge_plurality_permutation_invariant hp hm h3 hS hC hX (Or.inl rfl) hplu⟩

/-! ### Claim C5 -/

/-- Claim C5 counterexample: with the tied value multiset A, B, the value
selected by the most-common computation depends on the iteration order of the
Python set of values, which the input multiset does not determine: both
enumerations below list the set of values of the same list, yet the picks
differ. -/
theorem pick_tie_depends_on_set_order :
    is_set_enum ["A", "B"] ["A", "B"] ∧
    is_set_enum ["B", "A"] ["A", "B"] ∧
    pick_most_common_enum ["A", "B"] ["A", "B"] = some "A" ∧
    pick_most_common_enum ["A", "B"] ["B", "A"] = some "B" := by
  refine ⟨⟨by decide, fun w => Iff.rfl⟩, ⟨by decide, fun w => ?_⟩, by decide, by decide⟩
  constructor
  · intro h
    simp only [List.mem_cons, List.not_mem_nil, or_false] at h ⊢
    tauto
  · intro h
    simp only [List.mem_cons, List.not_mem_nil, or_false] at h ⊢
    tauto

/-- Claim C5 amended: the selection is a deterministic function of the value
multiset whenever one value occurs strictly more often than every other: for
any two inputs carrying the same multiset and any enumerations of their value
sets, both picks return that plurality value. (Under ties the pick depends on
the set enumeration order, as the counterexample shows.) -/
theorem pick_plurality_multiset_deterministic
    {values values' enum enum' : List String} {v : String}
    (hperm : values.Perm values')
    (he : is_set_enum enum values) (he' : is_set_enum enum' values')
    (hp : strict_plurality v values) :
    pick_most_common_enum values enum = some v ∧
    pick_most_common_enum values' enum' = some v :=
  ⟨pick_enum_plurality he hp, pick_enum_plurality he' (strict_plurality_perm hperm hp)⟩

/-- Witness for the amended claim C5 at a concrete input: the multiset MDC,
MDC, EPA reordered, with both enumeration orders of its value set, always
selects MDC. -/
theorem pick_plurality_multiset_deterministic_witness :
    (["MDC", "MDC", "EPA"] : List String).Perm ["EPA", "MDC", "MDC"] ∧
    is_set_enum ["EPA", "MDC"] ["MDC", "MDC", "EPA"] ∧
    is_set_enum ["MDC", "EPA"] ["EPA", "MDC", "MDC"] ∧
    strict_plurality "MDC" ["MDC", "MDC", "EPA"] ∧
    pick_most_common_enum ["MDC", "MDC", "EPA"] ["EPA", "MDC"] = some "MDC" ∧
    pick_most_common_enum ["EPA", "MDC", "MDC"] ["MDC", "EPA"] = some "MDC" := by
  have h1 : (["MDC", "MDC", "EPA"] : List String).Perm ["EPA", "MDC", "MDC"] := by decide
  have h2 : is_set_enum ["EPA", "MDC"] ["MDC", "MDC", "EPA"] := by
    refine ⟨by decide, fun w => ?_⟩
    simp only [List.mem_cons, List.not_mem_nil, or_false]
    tauto
  have h3 : is_set_enum ["MDC", "EPA"] ["EPA", "MDC", "MDC"] := by
    refine ⟨by decide, fun w => ?_⟩
    simp only [List.mem_cons, List.not_mem_nil, or_false]
    tauto
  have h4 : strict_plurality "MDC" ["MDC", "MDC", "EPA"] := by decide
  obtain ⟨p1, p2⟩ := pick_plurality_multiset_deterministic h1 h2 h3 h4
  exact ⟨h1, h2, h3, h4, p1, p2⟩

/-! ### Claim C8 -/

/-- Once `missing_field` is set, a line that is not an order directive leaves
the `load_pre` state untouched. -/
lemma load_pre_step_stuck {st : PreState} (hmf : st.missing_field = true) {l : String}
    (hl : pyStartsWith l "!!Order!!" = false) : load_pre_step st l = some st := by
  simp [load_pre_step, hl, hmf]

/-- Folding further directive-free lines from a `missing_field` state is the
identity. -/
lemma load_pre_fold_stuck {st : PreState} (hmf : st.missing_field = true) :
    ∀ {rest : List String}, (∀ l ∈ rest, pyStartsWith l "!!Order!!" = false) →
      rest.foldlM load_pre_step st = some st := by
  intro rest
  induction rest with
  | nil => intro _; rfl
  | cons l ls ih =>
    intro h
    rw [List.foldlM_cons, load_pre_step_stuck hmf (h l (List.mem_cons_self _ _))]
    simpa using ih (fun x hx => h x (List.mem_cons_of_mem _ hx))

/-- Claim C8: when an order directive line omits one of the required columns,
`load_pre` does not raise: the step on the directive returns a state whose
`missing_field` flag is set and whose diagnostics name the missing field, the
callsign map keeps its prior value, and folding any further non-directive
lines leaves the state, in particular the callsign map, unchanged — so no
observation from any later data line is added, while the run proceeds. -/
theorem load_pre_missing_column_disables_seeding
    {st : PreState} {line item : String} {flds : List String} {rest : List String}
    (hdir : pyStartsWith line "!!Order!!" = true)
    (hpar : listRemove ((pySplitOn ',' line).map (fun it => pyUpper (pyTrim it)))
      "!!ORDER!!" = some flds)
    (hitem : item ∈ sweeps_fields)
    (hmiss : flds.contains item = false)
    (hrest : ∀ l ∈ rest, pyStartsWith l "!!Order!!" = false) :
    ∃ st', load_pre_step st line = some st' ∧
      st'.missing_field = true ∧
      ("The " ++ item ++ " field is missing!") ∈ st'.diagnostics ∧
      st'.callmap = st.callmap ∧
      rest.foldlM load_pre_step st' = some st' := by
  have hmem : item ∈ sweeps_fields.filter (fun it => !(flds.contains it)) :=
    List.mem_filter.mpr ⟨hitem, by rw [hmiss]; rfl⟩
  have hne : sweeps_fields.filter (fun it => !(flds.contains it)) ≠ [] :=
    List.ne_nil_of_mem hmem
  have hemp : (sweeps_fields.filter (fun it => !(flds.contains it))).isEmpty = false := by
    cases hc : sweeps_fields.filter (fun it => !(flds.contains it)) with
    | nil => exact absurd hc hne
    | cons a t => rfl
  refine ⟨mkPre flds true st.callmap
      (st.diagnostics ++ (sweeps_fields.filter (fun it => !(flds.contains it))).map
        (fun it => "The " ++ it ++ " field is missing!")), ?_, rfl, ?_, rfl, ?_⟩
  · have hnotmem : item ∉ flds := by simpa using hmiss
    have hemp2 : (sweeps_fields.filter (fun it => !decide (it ∈ flds))).isEmpty = false := by
      simpa using hemp
    have hex : ∃ y ∈ sweeps_fields, y ∉ flds := ⟨item, hitem, hnotmem⟩
    simp [load_pre_step, hdir, hpar, hemp2, hex, mkPre]
  · exact List.mem_append_right _ (List.mem_map_of_mem _ hmem)
  · exact load_pre_fold_stuck rfl hrest

/-- Witness for claim C8 at a concrete input: the directive omits EXCH1, the
following data line adds nothing, and the fold terminates normally. -/
theorem load_pre_missing_column_disables_seeding_witness :
    pyStartsWith "!!Order!!, CALL, SECT, CK" "!!Order!!" = true ∧
    listRemove ((pySplitOn ',' "!!Order!!, CALL, SECT, CK").map
      (fun it => pyUpper (pyTrim it))) "!!ORDER!!" = some ["CALL", "SECT", "CK"] ∧
    "EXCH1" ∈ sweeps_fields ∧
    (["CALL", "SECT", "CK"] : List String).contains "EXCH1" = false ∧
    (∀ l ∈ (["W1AW,EB,64"] : List String), pyStartsWith l "!!Order!!" = false) ∧
    (∃ st', load_pre_step initPreState "!!Order!!, CALL, SECT, CK" = some st' ∧
      st'.missing_field = true ∧
      ("The " ++ "EXCH1" ++ " field is missing!") ∈ st'.diagnostics ∧
      st'.callmap = initPreState.callmap ∧
      (["W1AW,EB,64"] : List String).foldlM load_pre_step st' = some st') := by
  have hdir : pyStartsWith "!!Order!!, CALL, SECT, CK" "!!Order!!" = true := by decide
  have hpar : listRemove ((pySplitOn ',' "!!Order!!, CALL, SECT, CK").map
      (fun it => pyUpper (pyTrim it))) "!!ORDER!!" = some ["CALL", "SECT", "CK"] := by decide
  have hitem : "EXCH1" ∈ sweeps_fields := by decide
  have hmiss : (["CALL", "SECT", "CK"] : List String).contains "EXCH1" = false := by decide
  have hrest : ∀ l ∈ (["W1AW,EB,64"] : List String),
      pyStartsWith l "!!Order!!" = false := by decide
  exact ⟨hdir, hpar, hitem, hmiss, hrest,
    @load_pre_missing_column_disables_seeding initPreState "!!Order!!, CALL, SECT, CK"
      "EXCH1" ["CALL", "SECT", "CK"] ["W1AW,EB,64"] hdir hpar hitem hmiss hrest⟩

/-! ### Claim C4 -/

/-- Claim C4 (code bug): a QSO line with 15 tokens, a first-seen callsign and
an unparsable year field leaves that callsign mapped to the empty observation
list, because the source creates the bucket before evaluating `int` on the
year; the claimed store invariant fails, and at export `merge_entries_new` on
that empty sequence raises. -/
theorem load_cabrillo_leaves_empty_bucket :
    load_cabrillo [] ["QSO: 14000 CW 12-11-03 2100 K1AA 0001 A 50 EB W1XX 0001 B 61 CT"] =
      [("W1XX", [])] ∧
    merge_entries_new [] = none := by decide

/-! ### Claim C6 -/

/-- Claim C6 (code bug): a blank seed line stores an observation under the
empty callsign, and a data line with fewer fields than the declared layout
still stores a partial observation, because `dict(zip(fields, data))` silently
truncates; neither line is skipped. -/
theorem load_pre_stores_blank_and_short_lines :
    load_pre [""] = some (mkPre n1mm_default_fields false [("", [⟨-1, []⟩])] []) ∧
    load_pre ["W1AW,BOB"] =
      some (mkPre n1mm_default_fields false [("W1AW", [⟨-1, [("NAME", "BOB")]⟩])] []) := by
  decide

/-! ### Claim C7 -/

/-- Claim C7 (code bug): the all-caps directive spelling is not recognized —
the source tests `startswith` of a Python `or` of three strings, which
short-circuits to the first — so the data line is parsed with the default
layout and the stored observation has no SECT value; with the exact spelling
the declared order is applied. -/
theorem load_pre_directive_spelling_sensitive :
    load_pre ["!!ORDER!!, CALL, SECT, CK, EXCH1", "W1AW,EPA,72,B"] =
      some (mkPre n1mm_default_fields false
        [("W1AW", [⟨-1, [("NAME", "EPA"), ("LOC1", "72"), ("LOC2", "B")]⟩])] []) ∧
    Entry.get ⟨-1, [("NAME", "EPA"), ("LOC1", "72"), ("LOC2", "B")]⟩ "SECT" = none ∧
    load_pre ["!!Order!!, CALL, SECT, CK, EXCH1", "W1AW,EPA,72,B"] =
      some (mkPre ["CALL", "SECT", "CK", "EXCH1"] false
        [("W1AW", [⟨-1, [("SECT", "EPA"), ("CK", "72"), ("EXCH1", "B")]⟩])] []) := by
  decide

/-! ### Claim C9 -/

/-- Claim C9 (code bug): the line loop itself never raises — a short QSO line
and a non-QSO line change nothing, and processing continues past a bad-year
line to later lines — but the bad-year line leaves an empty bucket behind, on
which `merge_entries_new` raises at export, so a malformed line can still
abort the run. -/
theorem load_cabrillo_malformed_line_handling :
    load_cabrillo_line [] "QSO: 21039 CW" = [] ∧
    load_cabrillo_line [("N3EN", [])] "END-OF-LOG:" = [("N3EN", [])] ∧
    load_cabrillo []
      ["QSO: 21039 CW",
       "QSO: 14000 CW 13-11-02 2100 K1AA 0001 A 50 EB K2BB 0001 B 61 CT",
       "QSO: 21039 CW 2012-11-03 2100 KM6I 0001 U 75 SCV N3EN 0001 A 56 MDC"] =
      [("K2BB", []),
       ("N3EN", [⟨2012, [("SECT", "MDC"), ("CK", "56"), ("EXCH1", "A")]⟩])] ∧
    merge_entries_new [⟨2012, [("SECT", "MDC"), ("CK", "56"), ("EXCH1", "A")]⟩] =
      some ⟨2012, [("SECT", "MDC"), ("CK", "56"), ("EXCH1", "A")]⟩ := by
  decide

end GenPrefill
